import Mathlib

set_option maxRecDepth 100000

namespace Gemchat

-- JSON values as produced by the structured decoder (serde_json::Value in
-- src/ai.rs). Objects keep their fields sorted by key with unique keys,
-- matching serde_json's default BTreeMap representation; numbers are modelled
-- as integers (floating-point literals are outside the scope of this
-- development).
mutual
inductive Json where
  | null : Json
  | bool : Bool → Json
  | num : Int → Json
  | str : List Char → Json
  | arr : JsonArr → Json
  | obj : JsonObj → Json

inductive JsonArr where
  | nil : JsonArr
  | cons : Json → JsonArr → JsonArr

inductive JsonObj where
  | nil : JsonObj
  | cons : List Char → Json → JsonObj → JsonObj
end

/-- Field lookup inside an object (`serde_json` map lookup). -/
def JsonObj.find : JsonObj → List Char → Option Json
  | .nil, _ => none
  | .cons k v rest, key => if k = key then some v else rest.find key

/-- `Value::get(&str)`: `Some` only on objects that contain the key. -/
def Json.get : Json → List Char → Option Json
  | .obj o, key => o.find key
  | _, _ => none

/-- Positional lookup in a JSON array. -/
def JsonArr.get? : JsonArr → Nat → Option Json
  | .nil, _ => none
  | .cons j _, 0 => some j
  | .cons _ rest, n + 1 => rest.get? n

/-- `Value::get(usize)`: `Some` only on arrays with a large enough length. -/
def Json.getIdx : Json → Nat → Option Json
  | .arr a, i => a.get? i
  | _, _ => none

/-- `Value::index(&str)` (the `value["key"]` operator): missing key or a
non-object receiver yields `Null` instead of `None`. -/
def Json.indexStr (j : Json) (key : List Char) : Json :=
  (j.get key).getD Json.null

/-- `Value::as_str`. -/
def Json.as_str : Json → Option (List Char)
  | .str s => some s
  | _ => none

/-- `Value::as_i64`: integers in the `i64` range only. -/
def Json.as_i64 : Json → Option Int
  | .num n => if -(2 ^ 63) ≤ n ∧ n < 2 ^ 63 then some n else none
  | _ => none

/-- `Value::as_array`. -/
def Json.as_array : Json → Option JsonArr
  | .arr a => some a
  | _ => none

/-- Lower-case hexadecimal digit, used by the JSON string escaper. -/
def hexDigit (n : Nat) : Char :=
  if n < 10 then Char.ofNat (48 + n) else Char.ofNat (87 + n)

/-- serde_json's string escaping: quote, backslash and the short control
escapes get a two-character escape, all other control characters below 0x20
become a four-digit lower-case \u escape, everything else is emitted raw. -/
def escChar (c : Char) : List Char :=
  if c = Char.ofNat 34 then [Char.ofNat 92, Char.ofNat 34]
  else if c = Char.ofNat 92 then [Char.ofNat 92, Char.ofNat 92]
  else if c.toNat = 8 then "\x5cb".toList
  else if c.toNat = 9 then "\x5ct".toList
  else if c.toNat = 10 then "\x5cn".toList
  else if c.toNat = 12 then "\x5cf".toList
  else if c.toNat = 13 then "\x5cr".toList
  else if c.toNat < 32 then
    "\x5cu00".toList ++ [hexDigit (c.toNat / 16), hexDigit (c.toNat % 16)]
  else [c]

/-- Decimal digits of a natural number. -/
def natChars (n : Nat) : List Char := Nat.toDigits 10 n

/-- Decimal rendering of an integer. -/
def intChars (n : Int) : List Char :=
  if n < 0 then '-' :: natChars n.natAbs else natChars n.toNat

/-- Elements of a JSON array as a plain list. -/
def JsonArr.toList : JsonArr → List Json
  | .nil => []
  | .cons j rest => j :: rest.toList

/-- Fields of a JSON object as a plain association list. -/
def JsonObj.toList : JsonObj → List (List Char × Json)
  | .nil => []
  | .cons k v rest => (k, v) :: rest.toList

/-- Comma-separated concatenation. -/
def commaJoin : List (List Char) → List Char
  | [] => []
  | [x] => x
  | x :: y :: rest => x ++ ',' :: commaJoin (y :: rest)

/-- A quoted, escaped JSON string literal. -/
def quoteChars (s : List Char) : List Char :=
  Char.ofNat 34 :: (s.flatMap escChar) ++ [Char.ofNat 34]

-- Structural size of a JSON value, used as serialization fuel: it dominates
-- the nesting depth.
mutual
def Json.size : Json → Nat
  | .null => 1
  | .bool _ => 1
  | .num _ => 1
  | .str _ => 1
  | .arr a => a.size + 1
  | .obj o => o.size + 1

def JsonArr.size : JsonArr → Nat
  | .nil => 1
  | .cons j rest => j.size + rest.size + 1

def JsonObj.size : JsonObj → Nat
  | .nil => 1
  | .cons _ v rest => v.size + rest.size + 1
end

/-- Fuel-driven serialization; the fuel only has to dominate the nesting
depth, which the structural size does. -/
def jsonCharsGo : Nat → Json → List Char
  | 0, _ => []
  | fuel + 1, j =>
    match j with
    | .null => "null".toList
    | .bool true => "true".toList
    | .bool false => "false".toList
    | .num n => intChars n
    | .str s => quoteChars s
    | .arr a => '[' :: commaJoin (a.toList.map (jsonCharsGo fuel)) ++ [']']
    | .obj o =>
      Char.ofNat 123
        :: commaJoin (o.toList.map
            (fun kv => quoteChars kv.1 ++ ':' :: jsonCharsGo fuel kv.2))
        ++ [Char.ofNat 125]

/-- Compact JSON serialization, as serde_json's `Value::to_string` (used in
src/ai.rs to re-serialize the functionCall args payload). -/
def Json.to_string (j : Json) : List Char := jsonCharsGo j.size j

/-- Wrap an unbounded integer into the two's-complement `i32` range, the
behavior of Rust's `as i32` cast and of wrapping `i32` addition. -/
def wrap32 (n : Int) : Int := (n + 2 ^ 31) % 2 ^ 32 - 2 ^ 31

/-- Token counters carried by one usage report (struct `Usage` in src/ai.rs,
fields are `i32`). -/
structure Usage where
  prompt_tokens : Int
  response_tokens : Int
  total_tokens : Int
deriving DecidableEq

/-- Events sent from the streaming decoder to the application loop
(enum `AiUpdate` in src/ai.rs). -/
inductive AiUpdate where
  | Finished : AiUpdate
  | Error : List Char → AiUpdate
  | Content : List Char → AiUpdate
  | ToolCall : List Char → List Char → AiUpdate
  | Usage : Usage → AiUpdate
deriving DecidableEq

/-- Events contributed by one element of the "parts" array: a Content delta
when a string "text" field is present, then a ToolCall when a "functionCall"
with a string "name" is present (its "args", defaulting to Null, re-serialized
to text).  Mirrors the per-part body of the loop in stream_gemini
(src/ai.rs lines 174-198).  This is the "Check for text chunks" half. -/
def partTextEvents (part : Json) : List AiUpdate :=
  match (part.get "text".toList).bind Json.as_str with
  | some t => [AiUpdate.Content t]
  | none => []

/-- The "Check for tool calls" half of the per-part body. -/
def partCallEvents (part : Json) : List AiUpdate :=
  match part.get "functionCall".toList with
  | some fc =>
    match (fc.get "name".toList).bind Json.as_str with
    | some n =>
      [AiUpdate.ToolCall n (((fc.get "args".toList).getD Json.null).to_string)]
    | none => []
  | none => []

/-- Both checks of the per-part body, text first. -/
def partEvents (part : Json) : List AiUpdate :=
  partTextEvents part ++ partCallEvents part

/-- The `for part in parts_array` loop of stream_gemini. -/
def partsEvents : JsonArr → List AiUpdate
  | .nil => []
  | .cons p rest => partEvents p ++ partsEvents rest

/-- Events extracted from the first candidate: the nested
`candidates[0].content.parts` traversal of stream_gemini (src/ai.rs 169-203),
starting from the candidate object. -/
def firstCandEvents (first : Json) : List AiUpdate :=
  match first.get "content".toList with
  | none => []
  | some content =>
    match content.get "parts".toList with
    | none => []
    | some parts =>
      match parts.as_array with
      | none => []
      | some pa => partsEvents pa

/-- The "Extract Content" section of stream_gemini: only `candidates.get(0)`
is ever inspected. -/
def contentEvents (j : Json) : List AiUpdate :=
  match j.get "candidates".toList with
  | none => []
  | some cands =>
    match cands.getIdx 0 with
    | none => []
    | some first => firstCandEvents first

/-- The "Extract Usage Metadata" section of stream_gemini (src/ai.rs 205-216):
each counter read with `as_i64().unwrap_or(0) as i32`. -/
def usageEvents (j : Json) : List AiUpdate :=
  match j.get "usageMetadata".toList with
  | none => []
  | some usage =>
    [AiUpdate.Usage
      { prompt_tokens := wrap32 (((usage.indexStr "promptTokenCount".toList).as_i64).getD 0)
        response_tokens := wrap32 (((usage.indexStr "candidatesTokenCount".toList).as_i64).getD 0)
        total_tokens := wrap32 (((usage.indexStr "totalTokenCount".toList).as_i64).getD 0) }]

/-- All events emitted for one successfully decoded event object: content
first, then the usage report, in the send order of stream_gemini. -/
def extractEvents (j : Json) : List AiUpdate :=
  contentEvents j ++ usageEvents j

/-- Strip exactly one trailing carriage return, as the decoder loop does
(`if line.ends_with('\r') { line.pop(); }`, src/ai.rs 161-163). -/
def stripCR (l : List Char) : List Char :=
  if l.getLast? = some (Char.ofNat 13) then l.dropLast else l

/-- Split a buffer into its complete lines and the retained remainder.  This
is the `while let Some(pos) = buffer.find('\n')` loop of stream_gemini
(src/ai.rs 155-158): every segment ending in a line feed becomes a line (the
line feed removed), the text after the last line feed stays in the buffer. -/
def splitNl : List Char → List (List Char) × List Char
  | [] => ([], [])
  | c :: rest =>
    let r := splitNl rest
    if c = Char.ofNat 10 then ([] :: r.1, r.2)
    else
      match r.1 with
      | [] => ([], c :: r.2)
      | l :: ls => ((c :: l) :: ls, r.2)

/-- Decode one complete line (src/ai.rs 161-218): strip one trailing carriage
return, drop the line unless it starts with the "data: " prefix, strip the
prefix and attempt the structured decode; a decode failure yields nothing. -/
def processLine (parse : List Char → Option Json) (rawLine : List Char) :
    List AiUpdate :=
  let line := stripCR rawLine
  if line.take 6 = "data: ".toList then
    match parse (line.drop 6) with
    | some j => extractEvents j
    | none => []
  else []

/-- Ingest one already-decoded text chunk: append to the buffer, split off all
complete lines, process each in order.  Returns the retained buffer and the
emitted events. -/
def ingest (parse : List Char → Option Json) (buffer chunk : List Char) :
    List Char × List AiUpdate :=
  let r := splitNl (buffer ++ chunk)
  (r.2, r.1.flatMap (processLine parse))

/-- The replacement character emitted by lossy UTF-8 decoding. -/
def replChar : Char := Char.ofNat 0xFFFD

/-- Continuation byte test. -/
def isCont (b : Nat) : Bool := 0x80 ≤ b && b ≤ 0xBF

/-- Admissible first continuation byte after a 3- or 4-byte leading byte
(the tighter ranges exclude overlong forms, surrogates and values beyond
U+10FFFF). -/
def utf8Cont1Ok (b0 b1 : Nat) : Bool :=
  if b0 = 0xE0 then 0xA0 ≤ b1 && b1 ≤ 0xBF
  else if b0 = 0xED then 0x80 ≤ b1 && b1 ≤ 0x9F
  else if b0 = 0xF0 then 0x90 ≤ b1 && b1 ≤ 0xBF
  else if b0 = 0xF4 then 0x80 ≤ b1 && b1 ≤ 0x8F
  else isCont b1

/-- One step of UTF-8 decoding: the scalar (or U+FFFD) produced by the bytes
at the front of the input and the number of bytes consumed (at least one).
Invalid ranges (overlong forms, surrogates, values beyond U+10FFFF) are
rejected; an invalid or incomplete sequence consumes its maximal valid prefix
(at least the leading byte). -/
def utf8Step : Nat → List Nat → Char × Nat :=
  fun b0 rest =>
    if b0 < 0x80 then (Char.ofNat b0, 1)
    else if 0xC2 ≤ b0 && b0 ≤ 0xDF then
      match rest with
      | b1 :: _ =>
        if isCont b1 then (Char.ofNat ((b0 - 0xC0) * 64 + (b1 - 0x80)), 2)
        else (replChar, 1)
      | [] => (replChar, 1)
    else if 0xE0 ≤ b0 && b0 ≤ 0xEF then
      match rest with
      | b1 :: b2 :: _ =>
        if utf8Cont1Ok b0 b1 then
          if isCont b2 then
            (Char.ofNat ((b0 - 0xE0) * 4096 + (b1 - 0x80) * 64 + (b2 - 0x80)), 3)
          else (replChar, 2)
        else (replChar, 1)
      | [b1] => if utf8Cont1Ok b0 b1 then (replChar, 2) else (replChar, 1)
      | [] => (replChar, 1)
    else if 0xF0 ≤ b0 && b0 ≤ 0xF4 then
      match rest with
      | b1 :: b2 :: b3 :: _ =>
        if utf8Cont1Ok b0 b1 then
          if isCont b2 then
            if isCont b3 then
              (Char.ofNat ((b0 - 0xF0) * 262144 + (b1 - 0x80) * 4096
                + (b2 - 0x80) * 64 + (b3 - 0x80)), 4)
            else (replChar, 3)
          else (replChar, 2)
        else (replChar, 1)
      | [b1, b2] =>
        if utf8Cont1Ok b0 b1 then
          if isCont b2 then (replChar, 3) else (replChar, 2)
        else (replChar, 1)
      | [b1] => if utf8Cont1Ok b0 b1 then (replChar, 2) else (replChar, 1)
      | [] => (replChar, 1)
    else (replChar, 1)

/-- Fuel-driven decoding loop; every step consumes at least one byte, so fuel
equal to the byte count never runs out. -/
def utf8LossyGo : Nat → List Nat → List Char
  | 0, _ => []
  | _, [] => []
  | fuel + 1, b0 :: rest =>
    let s := utf8Step b0 rest
    s.1 :: utf8LossyGo fuel (rest.drop (s.2 - 1))

/-- Rust's `String::from_utf8_lossy`, applied by stream_gemini to every network
chunk on its own (src/ai.rs 147): each maximal invalid or incomplete sequence
is replaced by one U+FFFD, following the substitution-of-maximal-subparts
policy of the standard library. -/
def utf8Lossy (l : List Nat) : List Char := utf8LossyGo l.length l

/-- Ingest one raw byte chunk: lossy-decode it on its own, then run the
line-buffer loop, exactly as the chunk branch of stream_gemini does. -/
def ingestBytes (parse : List Char → Option Json) (buffer : List Char)
    (chunk : List Nat) : List Char × List AiUpdate :=
  ingest parse buffer (utf8Lossy chunk)

/-- The chunk-reading loop of stream_gemini: every successfully read chunk is
ingested; the first transport read failure stops the loop and becomes the
returned error text (further chunks are never read). -/
def process_chunks (parse : List Char → Option Json) :
    List Char → List (Except (List Char) (List Nat)) →
    List AiUpdate × Option (List Char)
  | _, [] => ([], none)
  | _, Except.error e :: _ => ([], some e)
  | buf, Except.ok bytes :: rest =>
    let r := ingestBytes parse buf bytes
    let r2 := process_chunks parse r.1 rest
    (r.2 ++ r2.1, r2.2)

/-- Observable behavior of stream_gemini given the transport's answer: a
non-success handshake becomes the "API Error status: body" text and nothing is
streamed; otherwise the chunk loop runs.  The pair is (events sent, error text
returned), matching the events sent on `tx` and the `Result` value. -/
def stream_gemini (parse : List Char → Option Json)
    (resp : Except (List Char × List Char) (List (Except (List Char) (List Nat)))) :
    List AiUpdate × Option (List Char) :=
  match resp with
  | .error sb => ([], some ("API Error ".toList ++ sb.1 ++ ": ".toList ++ sb.2))
  | .ok chunks => process_chunks parse [] chunks

/-- The offline fallback path of stream_response (src/ai.rs 28-43): three
content chunks, the middle one embedding the user input, then one fixed usage
report. -/
def mock_updates (input : List Char) : List AiUpdate :=
  [AiUpdate.Content "(Mock AI): ".toList,
   AiUpdate.Content ("I received: \x27".toList ++ input ++ "\x27.\n".toList),
   AiUpdate.Content "Set GEMINI_API_KEY for real responses.".toList,
   AiUpdate.Usage { prompt_tokens := 10, response_tokens := 20, total_tokens := 30 }]

/-- All events one turn sends (src/ai.rs 23-45): with a credential the live
stream runs and a returned error is forwarded as one Error event; without a
credential the scripted offline path runs; either way Finished is sent last. -/
def stream_response (parse : List Char → Option Json)
    (apiKey : Option (List Char)) (input : List Char)
    (resp : Except (List Char × List Char) (List (Except (List Char) (List Nat)))) :
    List AiUpdate :=
  (match apiKey with
   | some _ =>
     let r := stream_gemini parse resp
     r.1 ++ (match r.2 with
             | some e => [AiUpdate.Error ("Error: ".toList ++ e)]
             | none => [])
   | none => mock_updates input)
  ++ [AiUpdate.Finished]

/-- JSON whitespace (space, tab, line feed, carriage return). -/
def isJsonWs (c : Char) : Bool :=
  c.toNat = 32 || c.toNat = 9 || c.toNat = 10 || c.toNat = 13

/-- Skip leading JSON whitespace. -/
def skipWs (s : List Char) : List Char := s.dropWhile isJsonWs

/-- Value of one hexadecimal digit. -/
def hexVal (c : Char) : Option Nat :=
  if 48 ≤ c.toNat ∧ c.toNat ≤ 57 then some (c.toNat - 48)
  else if 97 ≤ c.toNat ∧ c.toNat ≤ 102 then some (c.toNat - 87)
  else if 65 ≤ c.toNat ∧ c.toNat ≤ 70 then some (c.toNat - 55)
  else none

/-- Prepend a decoded character to a string-parse result. -/
def pushChar (c : Char) (r : Option (List Char × List Char)) :
    Option (List Char × List Char) :=
  r.map (fun p => (c :: p.1, p.2))

/-- Parse the body of a JSON string after its opening quote, returning the
decoded characters and the input after the closing quote.  Handles the
standard escapes, \u escapes with surrogate pairs, and rejects raw control
characters and lone surrogates, as serde_json does. -/
def parseStringChars : List Char → Option (List Char × List Char)
  | [] => none
  | c :: rest =>
    if c = Char.ofNat 34 then some ([], rest)
    else if c = Char.ofNat 92 then
      match rest with
      | [] => none
      | e :: r2 =>
        if e = Char.ofNat 34 then pushChar (Char.ofNat 34) (parseStringChars r2)
        else if e = Char.ofNat 92 then pushChar (Char.ofNat 92) (parseStringChars r2)
        else if e = '/' then pushChar '/' (parseStringChars r2)
        else if e = 'b' then pushChar (Char.ofNat 8) (parseStringChars r2)
        else if e = 'f' then pushChar (Char.ofNat 12) (parseStringChars r2)
        else if e = 'n' then pushChar (Char.ofNat 10) (parseStringChars r2)
        else if e = 'r' then pushChar (Char.ofNat 13) (parseStringChars r2)
        else if e = 't' then pushChar (Char.ofNat 9) (parseStringChars r2)
        else if e = 'u' then
          match r2 with
          | h1 :: h2 :: h3 :: h4 :: r3 =>
            match hexVal h1, hexVal h2, hexVal h3, hexVal h4 with
            | some a1, some a2, some a3, some a4 =>
              let v := a1 * 4096 + a2 * 256 + a3 * 16 + a4
              if 0xD800 ≤ v ∧ v ≤ 0xDBFF then
                match r3 with
                | e2 :: u2 :: k1 :: k2 :: k3 :: k4 :: r4 =>
                  if e2 = Char.ofNat 92 ∧ u2 = 'u' then
                    match hexVal k1, hexVal k2, hexVal k3, hexVal k4 with
                    | some d1, some d2, some d3, some d4 =>
                      let w := d1 * 4096 + d2 * 256 + d3 * 16 + d4
                      if 0xDC00 ≤ w ∧ w ≤ 0xDFFF then
                        pushChar
                          (Char.ofNat (0x10000 + (v - 0xD800) * 1024 + (w - 0xDC00)))
                          (parseStringChars r4)
                      else none
                    | _, _, _, _ => none
                  else none
                | _ => none
              else if 0xDC00 ≤ v ∧ v ≤ 0xDFFF then none
              else pushChar (Char.ofNat v) (parseStringChars r3)
            | _, _, _, _ => none
          | _ => none
        else none
    else if c.toNat < 0x20 then none
    else pushChar c (parseStringChars rest)

/-- Numeric value of a digit string. -/
def digitsToNat (ds : List Char) : Nat :=
  ds.foldl (fun acc c => acc * 10 + (c.toNat - 48)) 0

/-- Parse a JSON integer literal: optional minus sign, digits without a
superfluous leading zero, not followed by a fraction or exponent
(floating-point literals are outside this model's scope). -/
def parseNum (s : List Char) : Option (Int × List Char) :=
  let core : List Char → Option (Nat × List Char) := fun t =>
    let p := t.span Char.isDigit
    match p.1 with
    | [] => none
    | d :: ds =>
      if d = '0' ∧ ds ≠ [] then none
      else if p.2.head? = some '.' ∨ p.2.head? = some 'e' ∨ p.2.head? = some 'E'
      then none
      else some (digitsToNat p.1, p.2)
  match s with
  | '-' :: t => (core t).map (fun p => (-(p.1 : Int), p.2))
  | t => (core t).map (fun p => ((p.1 : Int), p.2))

/-- Byte-lexicographic (equivalently scalar-lexicographic) order on keys, the
order of serde_json's default BTreeMap object representation. -/
def keyLt : List Char → List Char → Bool
  | [], [] => false
  | [], _ :: _ => true
  | _ :: _, [] => false
  | a1 :: r1, b1 :: r2 =>
    if a1.toNat < b1.toNat then true
    else if b1.toNat < a1.toNat then false
    else keyLt r1 r2

/-- Map insertion: keeps keys sorted and unique, the later of two equal keys
winning, as repeated BTreeMap::insert calls during parsing do. -/
def JsonObj.insertKey (k : List Char) (v : Json) : JsonObj → JsonObj
  | .nil => .cons k v .nil
  | .cons k2 v2 rest =>
    if k = k2 then .cons k v rest
    else if keyLt k k2 then .cons k v (.cons k2 v2 rest)
    else .cons k2 v2 (rest.insertKey k v)

mutual
def parseValue : Nat → List Char → Option (Json × List Char)
  | 0, _ => none
  | _ + 1, [] => none
  | fuel + 1, c :: rest =>
    if c = Char.ofNat 34 then
      (parseStringChars rest).map (fun p => (Json.str p.1, p.2))
    else if c = '[' then
      match skipWs rest with
      | c2 :: r2 => if c2 = ']' then some (.arr .nil, r2)
                    else parseElems fuel (c2 :: r2)
      | [] => none
    else if c = Char.ofNat 123 then
      match skipWs rest with
      | c2 :: r2 => if c2 = Char.ofNat 125 then some (.obj .nil, r2)
                    else parseMembers fuel JsonObj.nil (c2 :: r2)
      | [] => none
    else if (c :: rest).take 4 = "null".toList then some (.null, (c :: rest).drop 4)
    else if (c :: rest).take 4 = "true".toList then some (.bool true, (c :: rest).drop 4)
    else if (c :: rest).take 5 = "false".toList then some (.bool false, (c :: rest).drop 5)
    else (parseNum (c :: rest)).map (fun p => (Json.num p.1, p.2))

def parseElems : Nat → List Char → Option (Json × List Char)
  | 0, _ => none
  | fuel + 1, s =>
    match parseValue fuel s with
    | none => none
    | some (v, r) =>
      match skipWs r with
      | c :: r2 =>
        if c = ',' then
          match parseElems fuel (skipWs r2) with
          | some (Json.arr a, r3) => some (.arr (.cons v a), r3)
          | _ => none
        else if c = ']' then some (.arr (.cons v .nil), r2)
        else none
      | [] => none

def parseMembers : Nat → JsonObj → List Char → Option (Json × List Char)
  | 0, _, _ => none
  | fuel + 1, acc, s =>
    match s with
    | c :: rest =>
      if c = Char.ofNat 34 then
        match parseStringChars rest with
        | none => none
        | some (k, r1) =>
          match skipWs r1 with
          | c2 :: r2 =>
            if c2 = ':' then
              match parseValue fuel (skipWs r2) with
              | none => none
              | some (v, r3) =>
                match skipWs r3 with
                | c3 :: r4 =>
                  if c3 = ',' then
                    match skipWs r4 with
                    | c4 :: r5 =>
                      if c4 = Char.ofNat 34 then
                        parseMembers fuel (acc.insertKey k v) (c4 :: r5)
                      else none
                    | [] => none
                  else if c3 = Char.ofNat 125 then
                    some (.obj (acc.insertKey k v), r4)
                  else none
                | [] => none
            else none
          | [] => none
      else none
    | [] => none
end

/-- `serde_json::from_str::<Value>` on the integer/string subset: leading and
trailing whitespace tolerated, the whole input must be consumed. -/
def parseJson (s : List Char) : Option Json :=
  let t := skipWs s
  match parseValue (2 * t.length + 8) t with
  | some (v, r) => if skipWs r = [] then some v else none
  | none => none

/-- Foreground colors used by the renderer: ratatui's DarkGray for fence
lines, RGB triples from the highlighter for code. -/
inductive RColor where
  | darkGray : RColor
  | rgb : Nat → Nat → Nat → RColor
deriving DecidableEq

/-- The subset of ratatui's Style the renderer produces: a bold modifier and
an optional foreground color. -/
structure RStyle where
  bold : Bool
  fg : Option RColor
deriving DecidableEq

/-- `Style::default()` (`Span::raw`). -/
def defStyle : RStyle := { bold := false, fg := none }

/-- `Style::default().fg(Color::DarkGray)`, used for fence lines. -/
def dimStyle : RStyle := { bold := false, fg := some RColor.darkGray }

/-- `Style::default().add_modifier(Modifier::BOLD)`. -/
def boldStyle : RStyle := { bold := true, fg := none }

/-- One styled text fragment of a rendered line. -/
structure Span where
  text : List Char
  style : RStyle
deriving DecidableEq

/-- One rendered display line: an ordered list of styled spans. -/
abbrev RenderLine := List Span

/-- The foreground color of a syntect highlighter style, the only part
`translate_style` reads. -/
structure SynStyle where
  fgR : Nat
  fgG : Nat
  fgB : Nat
deriving DecidableEq

/-- `translate_style` (src/main.rs 461-467): keep only the foreground RGB. -/
def translate_style (s : SynStyle) : RStyle :=
  { bold := false, fg := some (RColor.rgb s.fgR s.fgG s.fgB) }

/-- Rust's `char::is_whitespace` (the Unicode White_Space property). -/
def rustIsWs (c : Char) : Bool :=
  let n := c.toNat
  (9 ≤ n && n ≤ 13) || n = 32 || n = 0x85 || n = 0xA0 || n = 0x1680 ||
  (0x2000 ≤ n && n ≤ 0x200A) || n = 0x2028 || n = 0x2029 || n = 0x202F ||
  n = 0x205F || n = 0x3000

/-- Rust's `str::trim`. -/
def rustTrim (l : List Char) : List Char :=
  ((l.dropWhile rustIsWs).reverse.dropWhile rustIsWs).reverse

/-- The triple-backtick fence marker. -/
def ticks : List Char := "```".toList

/-- Rust's `str::trim_start_matches("```")`: remove every leading repetition
of the fence marker. -/
def trimStartMatchesTicks : List Char → List Char
  | a :: b :: c :: rest =>
    if a :: b :: c :: ([] : List Char) = ticks then trimStartMatchesTicks rest
    else a :: b :: c :: rest
  | l => l

/-- Rust's `str::lines` (src/main.rs 395): split at line feeds, strip one
carriage return before each line feed, keep a nonempty final segment without
its own terminator. -/
def rustLines (s : List Char) : List (List Char) :=
  let r := splitNl s
  r.1.map stripCR ++ (if r.2 = [] then [] else [r.2])

/-- syntect's `LinesWithEndings`: split after each line feed, endings kept,
plus a nonempty final segment without a terminator. -/
def linesWithEndings (s : List Char) : List (List Char) :=
  let r := splitNl s
  r.1.map (fun l => l ++ [Char.ofNat 10]) ++ (if r.2 = [] then [] else [r.2])

/-- The character-at-a-time loop of `parse_inline_styles` (src/main.rs
469-499): a doubled star toggles the bold flag, flushing the accumulated text
as one span (skipped when empty); the trailing accumulator is flushed with the
current flag. -/
def parse_inline_styles_go : List Char → List Char → Bool → List Span
  | [], cur, bold =>
    if cur = [] then []
    else [{ text := cur, style := if bold then boldStyle else defStyle }]
  | '*' :: '*' :: rest, cur, bold =>
    (if cur = [] then []
     else [{ text := cur, style := if bold then boldStyle else defStyle }])
      ++ parse_inline_styles_go rest [] (!bold)
  | c :: rest, cur, bold => parse_inline_styles_go rest (cur ++ [c]) bold

/-- `parse_inline_styles`: the flag starts clear and never carries across
lines (the function is called per line). -/
def parse_inline_styles (line : List Char) : List Span :=
  parse_inline_styles_go line [] false

/-- The `for code_line in LinesWithEndings` highlighting loop (src/main.rs
409-417 and 446-455): the highlighter state threads through the lines, each
line's (style, text) ranges become one rendered line via translate_style. -/
def highlightAll {σ : Type} (step : σ → List Char → List (SynStyle × List Char) × σ) :
    σ → List (List Char) → List RenderLine
  | _, [] => []
  | st, l :: ls =>
    let r := step st l
    (r.1.map (fun sc => { text := sc.2, style := translate_style sc.1 }))
      :: highlightAll step r.2 ls

/-- Flush one accumulated code block: build a fresh highlighter for the
captured language tag (`HighlightLines::new` after the syntax lookup, both
inside the capability `init`) and highlight every buffered line. -/
def flushCode {σ : Type} (init : List Char → σ)
    (step : σ → List Char → List (SynStyle × List Char) × σ)
    (lang content : List Char) : List RenderLine :=
  highlightAll step (init lang) (linesWithEndings content)

/-- The line loop of `parse_markdown` (src/main.rs 389-459) over the already
split input lines, carrying (in_code_block, current_lang, code_block_content).
A trimmed line starting with the fence marker either opens a block (dim line
with the original text, language tag captured) or closes one (flush, dim
literal fence); in-code lines accumulate with a line feed; other lines go
through the inline tokenizer.  At the end an unclosed nonempty block is
flushed without a closing fence line. -/
def pmLoop {σ : Type} (init : List Char → σ)
    (step : σ → List Char → List (SynStyle × List Char) × σ) :
    List (List Char) → Bool → List Char → List Char → List RenderLine
  | [], inCode, lang, content =>
    if inCode ∧ content ≠ [] then flushCode init step lang content else []
  | line :: rest, inCode, lang, content =>
    if (rustTrim line).take 3 = ticks then
      if inCode then
        flushCode init step lang content
          ++ [{ text := ticks, style := dimStyle }]
          :: pmLoop init step rest false lang []
      else
        [{ text := line, style := dimStyle }]
          :: pmLoop init step rest true (trimStartMatchesTicks (rustTrim line)) content
    else if inCode then
      pmLoop init step rest true lang (content ++ line ++ [Char.ofNat 10])
    else
      parse_inline_styles line :: pmLoop init step rest inCode lang content

/-- `parse_markdown`: split the message text into lines and run the loop with
a clear fence state, an empty language tag and an empty code buffer. -/
def parse_markdown {σ : Type} (init : List Char → σ)
    (step : σ → List Char → List (SynStyle × List Char) × σ)
    (text : List Char) : List RenderLine :=
  pmLoop init step (rustLines text) false [] []

/-- Concatenated text content of a rendered line. -/
def lineChars (rl : RenderLine) : List Char := (rl.map Span.text).flatten

/-- Newline-join used to describe code blocks: every line gets a line feed. -/
def joinNl (ls : List (List Char)) : List Char :=
  (ls.map (fun l => l ++ [Char.ofNat 10])).flatten

/-- The token-counter fields of the application state (src/main.rs 66-68);
the UI fields play no role in the claims. -/
structure App where
  total_prompt_tokens : Int
  total_response_tokens : Int
deriving DecidableEq

/-- The counters start at zero (`App::new`, src/main.rs 92-93). -/
def App.initial : App := { total_prompt_tokens := 0, total_response_tokens := 0 }

/-- The `Action::UpdateUsage` arm of `App::update` (src/main.rs 202-205): add
the report's prompt and response counters to the two stored totals (`i32`
addition, hence the wrap); the report's total counter is not stored anywhere. -/
def App.update_usage (s : App) (u : Usage) : App :=
  { total_prompt_tokens := wrap32 (s.total_prompt_tokens + u.prompt_tokens),
    total_response_tokens := wrap32 (s.total_response_tokens + u.response_tokens) }

/-- The Total line of the sidebar (src/main.rs 295): the sum of the two
stored totals, computed on the fly. -/
def App.sidebar_total (s : App) : Int :=
  wrap32 (s.total_prompt_tokens + s.total_response_tokens)

/-- ASCII bytes of a valid event line up to a two-byte UTF-8 character
(U+00E9, bytes 0xC3 0xA9) inside the JSON string payload. -/
def ceBytesPre : List Nat :=
  "data: \x7b\"candidates\":[\x7b\"content\":\x7b\"parts\":[\x7b\"text\":\"".toList.map Char.toNat

/-- ASCII bytes of the rest of that event line, terminator included. -/
def ceBytesPost : List Nat := "\"\x7d]\x7d\x7d]\x7d\n".toList.map Char.toNat

/-- First chunk of the split: the line's bytes cut after the leading byte of
the two-byte character. -/
def ceChunk1 : List Nat := ceBytesPre ++ [0xC3]

/-- Second chunk: the orphaned continuation byte and the rest of the line. -/
def ceChunk2 : List Nat := 0xA9 :: ceBytesPost

/-- A trivial text-preserving highlighter capability used to instantiate the
renderer theorems: stateless, one span per line with a fixed color. -/
def unitInit : List Char → Unit := fun _ => ()

/-- Step of the trivial highlighter: the whole line as one span. -/
def unitStep : Unit → List Char → List (SynStyle × List Char) × Unit :=
  fun _ l => ([({ fgR := 0, fgG := 0, fgB := 0 }, l)], ())

/-- Two decoded event objects sharing the first candidate and the usage block
but differing in the second candidate (which carries both a text part and a
function-call part), used to instantiate the first-candidate-only theorem. -/
def c10A : Json :=
  (parseJson "\x7b\"candidates\":[\x7b\"content\":\x7b\"parts\":[\x7b\"text\":\"a\"\x7d]\x7d\x7d,\x7b\"content\":\x7b\"parts\":[\x7b\"text\":\"IGNORED\",\"functionCall\":\x7b\"name\":\"run_command\",\"args\":\x7b\"command\":\"ls\"\x7d\x7d\x7d]\x7d\x7d]\x7d".toList).getD Json.null

/-- Same first candidate, no second candidate at all. -/
def c10B : Json :=
  (parseJson "\x7b\"candidates\":[\x7b\"content\":\x7b\"parts\":[\x7b\"text\":\"a\"\x7d]\x7d\x7d]\x7d".toList).getD Json.null

section Lemmas

/-- A buffer with no line feed stays in the buffer: no line is split off. -/
theorem splitNl_no_nl (l : List Char) (h : Char.ofNat 10 ∉ l) :
    splitNl l = ([], l) := by
  induction l with
  | nil => rfl
  | cons c rest ih =>
    have hc : ¬ c = Char.ofNat 10 := fun hc => h (hc ▸ List.mem_cons_self c rest)
    have hr : Char.ofNat 10 ∉ rest := fun hm => h (List.mem_cons_of_mem c hm)
    simp only [splitNl, ih hr, if_neg hc]

/-- Prepending one complete line shifts it into the line list. -/
theorem splitNl_append_nl (l s : List Char) (h : Char.ofNat 10 ∉ l) :
    splitNl (l ++ Char.ofNat 10 :: s) = (l :: (splitNl s).1, (splitNl s).2) := by
  induction l with
  | nil => simp [splitNl]
  | cons c rest ih =>
    have hc : ¬ c = Char.ofNat 10 := fun hc => h (hc ▸ List.mem_cons_self c rest)
    have hr : Char.ofNat 10 ∉ rest := fun hm => h (List.mem_cons_of_mem c hm)
    have ih2 := ih hr
    simp only [List.cons_append, splitNl, if_neg hc, List.append_eq]
    rw [ih2]

/-- Every event the tool-call check emits is a ToolCall. -/
theorem mem_partCallEvents (part : Json) (e : AiUpdate)
    (h : e ∈ partCallEvents part) : ∃ n a, e = AiUpdate.ToolCall n a := by
  unfold partCallEvents at h
  split at h
  · split at h
    · rcases List.mem_singleton.mp h with rfl
      exact ⟨_, _, rfl⟩
    · cases h
  · cases h

/-- Every event the text check emits is the Content of the found text. -/
theorem mem_partTextEvents (part : Json) (e : AiUpdate)
    (h : e ∈ partTextEvents part) :
    ∃ t, e = AiUpdate.Content t ∧ (part.get "text".toList).bind Json.as_str = some t := by
  unfold partTextEvents at h
  split at h
  · next t heq => rcases List.mem_singleton.mp h with rfl; exact ⟨t, rfl, heq⟩
  · cases h

/-- Every event the parts loop emits is a Content or a ToolCall. -/
theorem mem_partsEvents (pa : JsonArr) (e : AiUpdate) (h : e ∈ partsEvents pa) :
    (∃ t, e = AiUpdate.Content t) ∨ (∃ n a, e = AiUpdate.ToolCall n a) := by
  match pa with
  | .nil => cases h
  | .cons p rest =>
    rcases List.mem_append.mp h with h2 | h2
    · rcases List.mem_append.mp h2 with h3 | h3
      · rcases mem_partTextEvents p e h3 with ⟨t, rfl, _⟩
        exact Or.inl ⟨t, rfl⟩
      · rcases mem_partCallEvents p e h3 with ⟨n, a, rfl⟩
        exact Or.inr ⟨n, a, rfl⟩
    · exact mem_partsEvents rest e h2

/-- Shape of the events one decoded object can produce: Content, ToolCall or
Usage, never Error and never Finished. -/
theorem mem_extractEvents (j : Json) (e : AiUpdate) (h : e ∈ extractEvents j) :
    (∃ t, e = AiUpdate.Content t) ∨ (∃ n a, e = AiUpdate.ToolCall n a) ∨
    (∃ u, e = AiUpdate.Usage u) := by
  unfold extractEvents at h
  rcases List.mem_append.mp h with h | h
  · unfold contentEvents at h
    split at h
    · cases h
    · split at h
      · cases h
      · unfold firstCandEvents at h
        split at h
        · cases h
        · split at h
          · cases h
          · split at h
            · cases h
            · next pa _ =>
              rcases mem_partsEvents pa e h with ⟨t, rfl⟩ | ⟨n, a, rfl⟩
              · exact Or.inl ⟨t, rfl⟩
              · exact Or.inr (Or.inl ⟨n, a, rfl⟩)
  · unfold usageEvents at h
    split at h
    · cases h
    · rcases List.mem_singleton.mp h with rfl
      exact Or.inr (Or.inr ⟨_, rfl⟩)

/-- Decoding one line never produces a Finished or an Error event. -/
theorem mem_processLine (parse : List Char → Option Json) (l : List Char)
    (e : AiUpdate) (h : e ∈ processLine parse l) :
    e ≠ AiUpdate.Finished ∧ ∀ m, e ≠ AiUpdate.Error m := by
  simp only [processLine] at h
  split at h
  · split at h
    · next j _ =>
      rcases mem_extractEvents j e h with ⟨t, rfl⟩ | ⟨n, a, rfl⟩ | ⟨u, rfl⟩ <;>
        exact ⟨(fun hc => nomatch hc), (fun m hc => nomatch hc)⟩
    · cases h
  · cases h

/-- The ingest loop never produces a Finished or an Error event. -/
theorem mem_ingest (parse : List Char → Option Json) (buf chunk : List Char)
    (e : AiUpdate) (h : e ∈ (ingest parse buf chunk).2) :
    e ≠ AiUpdate.Finished ∧ ∀ m, e ≠ AiUpdate.Error m := by
  unfold ingest at h
  rcases List.mem_flatMap.mp h with ⟨l, _, hl⟩
  exact mem_processLine parse l e hl

/-- The chunk loop never produces a Finished or an Error event. -/
theorem mem_process_chunks (parse : List Char → Option Json) (buf : List Char)
    (cs : List (Except (List Char) (List Nat))) (e : AiUpdate)
    (h : e ∈ (process_chunks parse buf cs).1) :
    e ≠ AiUpdate.Finished ∧ ∀ m, e ≠ AiUpdate.Error m := by
  induction cs generalizing buf with
  | nil => cases h
  | cons c rest ih =>
    cases c with
    | error msg => cases h
    | ok bytes =>
      unfold process_chunks at h
      rcases List.mem_append.mp h with h2 | h2
      · exact mem_ingest parse buf (utf8Lossy bytes) e h2
      · exact ih _ h2

/-- The error component of the chunk loop comes only from a transport error. -/
theorem process_chunks_ok_err (parse : List Char → Option Json)
    (buf : List Char) (bs : List (List Nat)) :
    (process_chunks parse buf (bs.map Except.ok)).2 = none := by
  induction bs generalizing buf with
  | nil => rfl
  | cons b rest ih => simp only [List.map_cons, process_chunks, ih]

/-- The content check reads the decoded object only through
`candidates.get(0)`. -/
theorem contentEvents_eq_first (j : Json) :
    contentEvents j
      = match (j.get "candidates".toList).bind (fun c => c.getIdx 0) with
        | none => []
        | some first => firstCandEvents first := by
  unfold contentEvents
  cases j.get "candidates".toList with
  | none => rfl
  | some cands => rfl

/-- Values already in the `i32` range are fixed by the wrap. -/
theorem wrap32_eq_self (n : Int) (h1 : -(2 ^ 31) ≤ n) (h2 : n < 2 ^ 31) :
    wrap32 n = n := by
  unfold wrap32
  rw [Int.emod_eq_of_lt (by omega) (by omega)]
  omega

/-- The wrap changes a value by a multiple of 2^32. -/
theorem wrap32_shift (n : Int) : ∃ k, wrap32 n = n + 2 ^ 32 * k := by
  refine ⟨-((n + 2 ^ 31) / 2 ^ 32), ?_⟩
  unfold wrap32
  rw [Int.emod_def]
  ring

/-- The wrap ignores multiples of 2^32. -/
theorem wrap32_add_mul (a k : Int) : wrap32 (a + 2 ^ 32 * k) = wrap32 a := by
  unfold wrap32
  rw [show a + 2 ^ 32 * k + 2 ^ 31 = a + 2 ^ 31 + 2 ^ 32 * k by ring,
    Int.add_mul_emod_self_left]

/-- The sidebar total after any report sequence is the wrapped sum of the
initial totals and all prompt and response counters received. -/
theorem sidebar_total_foldl (s : App) (us : List Usage) :
    App.sidebar_total (us.foldl App.update_usage s)
      = wrap32 (s.total_prompt_tokens + s.total_response_tokens
          + (us.map (fun u => u.prompt_tokens + u.response_tokens)).sum) := by
  induction us generalizing s with
  | nil => simp [App.sidebar_total]
  | cons u us ih =>
    simp only [List.foldl_cons, List.map_cons, List.sum_cons, ih]
    unfold App.update_usage
    obtain ⟨k1, hk1⟩ := wrap32_shift (s.total_prompt_tokens + u.prompt_tokens)
    obtain ⟨k2, hk2⟩ := wrap32_shift (s.total_response_tokens + u.response_tokens)
    simp only [hk1, hk2]
    rw [show s.total_prompt_tokens + u.prompt_tokens + 2 ^ 32 * k1
          + (s.total_response_tokens + u.response_tokens + 2 ^ 32 * k2)
          + (us.map (fun u => u.prompt_tokens + u.response_tokens)).sum
        = s.total_prompt_tokens + s.total_response_tokens
          + (u.prompt_tokens + u.response_tokens
            + (us.map (fun u => u.prompt_tokens + u.response_tokens)).sum)
          + 2 ^ 32 * (k1 + k2) by ring,
      wrap32_add_mul]

/-- The first state of a scan. -/
theorem scanl_head (f : App → Usage → App) (s : App) (us : List Usage) :
    (us.scanl f s).head? = some s := by
  cases us <;> rfl

end Lemmas

section Claims

/-- C1, amended (counterexample `c1_counterexample`): splitting a single valid
event line across two ingest calls at an arbitrary offset that falls on a
UTF-8 character boundary inside the line yields zero events from the first
call, and the second call returns exactly what a single unsplit ingest of the
whole line returns.  The line is `content ++ "\n"` with no interior line feed;
the split keeps the terminator in the second chunk. -/
theorem c1_chunk_boundary (parse : List Char → Option Json)
    (content : List Char) (k : Nat)
    (hnl : Char.ofNat 10 ∉ content) (hk : k ≤ content.length) :
    (ingest parse [] ((content ++ [Char.ofNat 10]).take k)).2 = [] ∧
    ingest parse ((ingest parse [] ((content ++ [Char.ofNat 10]).take k)).1)
        ((content ++ [Char.ofNat 10]).drop k)
      = ingest parse [] (content ++ [Char.ofNat 10]) := by
  have htake : (content ++ [Char.ofNat 10]).take k = content.take k := by
    rw [List.take_append_of_le_length hk]
  have hnltake : Char.ofNat 10 ∉ (content ++ [Char.ofNat 10]).take k := by
    rw [htake]
    exact fun hm => hnl (List.take_subset k content hm)
  have hsp : splitNl ((content ++ [Char.ofNat 10]).take k)
      = ([], (content ++ [Char.ofNat 10]).take k) :=
    splitNl_no_nl _ hnltake
  refine ⟨?_, ?_⟩
  · simp [ingest, hsp]
  · simp only [ingest, List.nil_append, hsp, List.take_append_drop]

/-- C1, counterexample to the claim as stated: the split offset is a byte
offset inside a two-byte UTF-8 character; the per-chunk lossy decode turns the
character into two replacement characters, so the second call's events differ
from the unsplit call's events (the first call still yields zero events). -/
theorem c1_counterexample :
    (ingestBytes parseJson [] ceChunk1).2 = [] ∧
    (ingestBytes parseJson (ingestBytes parseJson [] ceChunk1).1 ceChunk2).2
      ≠ (ingestBytes parseJson [] (ceChunk1 ++ ceChunk2)).2 := by
  refine ⟨by decide, by decide⟩

/-- Witness for `c1_chunk_boundary` at a concrete line and offset. -/
theorem c1_chunk_boundary_witness :
    (Char.ofNat 10 ∉ "data: \x7b\"usageMetadata\":\x7b\x7d\x7d".toList) ∧
    3 ≤ "data: \x7b\"usageMetadata\":\x7b\x7d\x7d".toList.length ∧
    ((ingest parseJson []
        (("data: \x7b\"usageMetadata\":\x7b\x7d\x7d".toList ++ [Char.ofNat 10]).take 3)).2 = [] ∧
      ingest parseJson
          ((ingest parseJson []
            (("data: \x7b\"usageMetadata\":\x7b\x7d\x7d".toList ++ [Char.ofNat 10]).take 3)).1)
          (("data: \x7b\"usageMetadata\":\x7b\x7d\x7d".toList ++ [Char.ofNat 10]).drop 3)
        = ingest parseJson []
            ("data: \x7b\"usageMetadata\":\x7b\x7d\x7d".toList ++ [Char.ofNat 10])) :=
  ⟨by decide, by decide,
   c1_chunk_boundary parseJson "data: \x7b\"usageMetadata\":\x7b\x7d\x7d".toList 3
     (by decide) (by decide)⟩

/-- C2, amended (counterexample `c2_counterexample`): a part yields a
ContentDelta event if and only if it carries a string-valued text field, and
the delta carries exactly that text; an empty text field still yields a
ContentDelta with empty payload. -/
theorem c2_content_iff (part : Json) (t : List Char) :
    AiUpdate.Content t ∈ partEvents part ↔
      (part.get "text".toList).bind Json.as_str = some t := by
  constructor
  · intro hm
    rcases List.mem_append.mp hm with h | h
    · rcases mem_partTextEvents part _ h with ⟨t2, heq, hfind⟩
      cases heq
      exact hfind
    · rcases mem_partCallEvents part _ h with ⟨n, a, heq⟩
      cases heq
  · intro heq
    refine List.mem_append.mpr (Or.inl ?_)
    unfold partTextEvents
    rw [heq]
    exact List.mem_singleton.mpr rfl

/-- C2, counterexample to the claim as stated: a part whose text field is
present but empty still yields a ContentDelta (with empty text). -/
theorem c2_counterexample :
    AiUpdate.Content []
      ∈ partEvents (Json.obj (JsonObj.cons "text".toList (Json.str []) JsonObj.nil)) := by
  decide

/-- C10 (confirmed): decoding reads an event object only through
`candidates.get(0)` and the usage block: two objects agreeing there produce
identical events, so parts carried by any candidate after the first never
yield ContentDelta or ToolCall events. -/
theorem c10_first_candidate_only (j j2 : Json)
    (hc : (j.get "candidates".toList).bind (fun c => c.getIdx 0)
        = (j2.get "candidates".toList).bind (fun c => c.getIdx 0))
    (hu : j.get "usageMetadata".toList = j2.get "usageMetadata".toList) :
    extractEvents j = extractEvents j2 := by
  unfold extractEvents
  rw [contentEvents_eq_first, contentEvents_eq_first, hc]
  unfold usageEvents
  rw [hu]

/-- Witness for `c10_first_candidate_only`: dropping a second candidate that
carries a text part and a function-call part leaves the events unchanged. -/
theorem c10_first_candidate_only_witness :
    ((c10A.get "candidates".toList).bind (fun c => c.getIdx 0)
        = (c10B.get "candidates".toList).bind (fun c => c.getIdx 0)) ∧
    (c10A.get "usageMetadata".toList = c10B.get "usageMetadata".toList) ∧
    extractEvents c10A = extractEvents c10B :=
  ⟨rfl, rfl, c10_first_candidate_only c10A c10B rfl rfl⟩

/-- C3, amended (counterexample `c3_counterexample`): applying a UsageReport
adds its prompt and response counters to the two stored running totals and
ignores its total counter entirely; after any sequence of reports the exposed
total-tokens figure equals the (i32-wrapped) sum of the prompt and response
counters received, not the sum of the total counters. -/
theorem c3_usage_totals (us : List Usage) :
    (∀ s u t2,
        App.update_usage s { prompt_tokens := u.prompt_tokens,
                             response_tokens := u.response_tokens,
                             total_tokens := t2 }
          = App.update_usage s u) ∧
    App.sidebar_total (us.foldl App.update_usage App.initial)
      = wrap32 ((us.map (fun u => u.prompt_tokens + u.response_tokens)).sum) := by
  refine ⟨fun s u t2 => rfl, ?_⟩
  rw [sidebar_total_foldl]
  norm_num [App.initial]

/-- C3, counterexample to the claim as stated: one report with prompt 1,
response 2, total 100; the exposed total figure is 3, not the received total
counter sum 100. -/
theorem c3_counterexample :
    App.sidebar_total
        (List.foldl App.update_usage App.initial
          [{ prompt_tokens := 1, response_tokens := 2, total_tokens := 100 }])
      ≠ (List.map Usage.total_tokens
          [{ prompt_tokens := 1, response_tokens := 2, total_tokens := 100 }]).sum := by
  decide

/-- Monotone single sweep underlying C4: if the state totals are nonnegative
and all counters are nonnegative with in-range running sums, every scan step
is nondecreasing in both stored totals. -/
theorem c4_aux (s : App) (us : List Usage)
    (hsp : 0 ≤ s.total_prompt_tokens) (hsr : 0 ≤ s.total_response_tokens)
    (hbp : s.total_prompt_tokens + (us.map Usage.prompt_tokens).sum < 2 ^ 31)
    (hbr : s.total_response_tokens + (us.map Usage.response_tokens).sum < 2 ^ 31)
    (hp : ∀ u ∈ us, 0 ≤ u.prompt_tokens) (hr : ∀ u ∈ us, 0 ≤ u.response_tokens) :
    List.Chain'
      (fun a b => a.total_prompt_tokens ≤ b.total_prompt_tokens ∧
        a.total_response_tokens ≤ b.total_response_tokens)
      (us.scanl App.update_usage s) := by
  induction us generalizing s with
  | nil => simp
  | cons u us ih =>
    have hup : 0 ≤ u.prompt_tokens := hp u (List.mem_cons_self u us)
    have hur : 0 ≤ u.response_tokens := hr u (List.mem_cons_self u us)
    have hsump : 0 ≤ (us.map Usage.prompt_tokens).sum :=
      List.sum_nonneg (by
        intro x hx
        rcases List.mem_map.mp hx with ⟨u2, hu2, rfl⟩
        exact hp u2 (List.mem_cons_of_mem u hu2))
    have hsumr : 0 ≤ (us.map Usage.response_tokens).sum :=
      List.sum_nonneg (by
        intro x hx
        rcases List.mem_map.mp hx with ⟨u2, hu2, rfl⟩
        exact hr u2 (List.mem_cons_of_mem u hu2))
    have hsums : (List.map Usage.prompt_tokens (u :: us)).sum
        = u.prompt_tokens + (us.map Usage.prompt_tokens).sum := by simp
    have hsums2 : (List.map Usage.response_tokens (u :: us)).sum
        = u.response_tokens + (us.map Usage.response_tokens).sum := by simp
    rw [hsums] at hbp
    rw [hsums2] at hbr
    have hstep : App.update_usage s u
        = { total_prompt_tokens := s.total_prompt_tokens + u.prompt_tokens,
            total_response_tokens := s.total_response_tokens + u.response_tokens } := by
      unfold App.update_usage
      rw [wrap32_eq_self _ (by omega) (by omega),
        wrap32_eq_self _ (by omega) (by omega)]
    rw [List.scanl_cons]
    apply List.chain'_cons'.mpr
    constructor
    · intro b hb
      simp only [List.append_eq, List.nil_append] at hb
      rw [scanl_head] at hb
      cases hb
      rw [hstep]
      exact ⟨by show s.total_prompt_tokens
              ≤ s.total_prompt_tokens + u.prompt_tokens; omega,
        by show s.total_response_tokens
              ≤ s.total_response_tokens + u.response_tokens; omega⟩
    · have h2 := ih
        { total_prompt_tokens := s.total_prompt_tokens + u.prompt_tokens,
          total_response_tokens := s.total_response_tokens + u.response_tokens }
        (by show 0 ≤ s.total_prompt_tokens + u.prompt_tokens; omega)
        (by show 0 ≤ s.total_response_tokens + u.response_tokens; omega)
        (by show s.total_prompt_tokens + u.prompt_tokens
              + (us.map Usage.prompt_tokens).sum < 2 ^ 31; omega)
        (by show s.total_response_tokens + u.response_tokens
              + (us.map Usage.response_tokens).sum < 2 ^ 31; omega)
        (fun u2 hu2 => hp u2 (List.mem_cons_of_mem u hu2))
        (fun u2 hu2 => hr u2 (List.mem_cons_of_mem u hu2))
      rw [hstep]
      exact h2

/-- C4, amended (counterexample `c4_counterexample`): for a sequence of
UsageReport events whose counters are nonnegative and whose sums stay below
2^31 (no i32 overflow), each accumulated total never decreases from one
application to the next. -/
theorem c4_monotone (us : List Usage)
    (hp : ∀ u ∈ us, 0 ≤ u.prompt_tokens) (hr : ∀ u ∈ us, 0 ≤ u.response_tokens)
    (hbp : (us.map Usage.prompt_tokens).sum < 2 ^ 31)
    (hbr : (us.map Usage.response_tokens).sum < 2 ^ 31) :
    List.Chain'
      (fun a b => a.total_prompt_tokens ≤ b.total_prompt_tokens ∧
        a.total_response_tokens ≤ b.total_response_tokens)
      (us.scanl App.update_usage App.initial) := by
  apply c4_aux App.initial us (by decide) (by decide)
  · simpa [App.initial] using hbp
  · simpa [App.initial] using hbr
  · exact hp
  · exact hr

/-- C4, counterexample to the claim as stated: the decoder turns a usage block
with a negative counter into a UsageReport event, and applying that event
strictly decreases the accumulated prompt total. -/
theorem c4_counterexample :
    usageEvents
        ((parseJson "data: ".toList).getD Json.null) = [] ∧
    usageEvents
        ((parseJson "\x7b\"usageMetadata\":\x7b\"promptTokenCount\":-1\x7d\x7d".toList).getD
          Json.null)
      = [AiUpdate.Usage { prompt_tokens := -1, response_tokens := 0, total_tokens := 0 }] ∧
    (App.update_usage App.initial
        { prompt_tokens := -1, response_tokens := 0, total_tokens := 0 }).total_prompt_tokens
      < App.initial.total_prompt_tokens := by
  refine ⟨rfl, by decide, by decide⟩

/-- Witness for `c4_monotone` on a concrete report sequence. -/
theorem c4_monotone_witness :
    (∀ u ∈ [Usage.mk 1 2 3, Usage.mk 4 5 6], 0 ≤ u.prompt_tokens) ∧
    (∀ u ∈ [Usage.mk 1 2 3, Usage.mk 4 5 6], 0 ≤ u.response_tokens) ∧
    ([Usage.mk 1 2 3, Usage.mk 4 5 6].map Usage.prompt_tokens).sum < 2 ^ 31 ∧
    ([Usage.mk 1 2 3, Usage.mk 4 5 6].map Usage.response_tokens).sum < 2 ^ 31 ∧
    List.Chain'
      (fun a b => a.total_prompt_tokens ≤ b.total_prompt_tokens ∧
        a.total_response_tokens ≤ b.total_response_tokens)
      ([Usage.mk 1 2 3, Usage.mk 4 5 6].scanl App.update_usage App.initial) :=
  ⟨by decide, by decide, by decide, by decide,
   c4_monotone [Usage.mk 1 2 3, Usage.mk 4 5 6]
     (by decide) (by decide) (by decide) (by decide)⟩

/-- C5, amended (counterexample `c5_counterexample`): with no credential the
offline path always emits exactly three content chunks whose second chunk
embeds the user's input verbatim between fixed surrounding text, then the
fixed usage numbers 10/20/30, then Finished; only the embedded input varies. -/
theorem c5_offline_mode (parse : List Char → Option Json) (input : List Char)
    (resp : Except (List Char × List Char) (List (Except (List Char) (List Nat)))) :
    stream_response parse none input resp
      = [AiUpdate.Content "(Mock AI): ".toList,
         AiUpdate.Content ("I received: \x27".toList ++ input ++ "\x27.\n".toList),
         AiUpdate.Content "Set GEMINI_API_KEY for real responses.".toList,
         AiUpdate.Usage { prompt_tokens := 10, response_tokens := 20, total_tokens := 30 },
         AiUpdate.Finished] := rfl

/-- C5, counterexample to the claim as stated: the offline content is not
independent of the user's input - two different inputs produce different
content events. -/
theorem c5_counterexample :
    stream_response parseJson none "a".toList (Except.ok [])
      ≠ stream_response parseJson none "b".toList (Except.ok []) := by
  decide

/-- The events stream_gemini sends are never Finished and never Error (its
errors are returned, not sent; the caller turns them into one Error event). -/
theorem mem_stream_gemini (parse : List Char → Option Json)
    (resp : Except (List Char × List Char) (List (Except (List Char) (List Nat))))
    (e : AiUpdate) (h : e ∈ (stream_gemini parse resp).1) :
    e ≠ AiUpdate.Finished ∧ ∀ m, e ≠ AiUpdate.Error m := by
  cases resp with
  | error sb => cases h
  | ok chunks => exact mem_process_chunks parse [] chunks e h

/-- C6 (confirmed): for every turn - live-stream or offline, with or without a
preceding Error event - the Finished event is emitted exactly once, as the
last event of the turn. -/
theorem c6_finished_once_last (parse : List Char → Option Json)
    (apiKey : Option (List Char)) (input : List Char)
    (resp : Except (List Char × List Char) (List (Except (List Char) (List Nat)))) :
    ∃ front, stream_response parse apiKey input resp = front ++ [AiUpdate.Finished]
      ∧ AiUpdate.Finished ∉ front := by
  cases apiKey with
  | none =>
    refine ⟨mock_updates input, rfl, ?_⟩
    intro hmem
    simp [mock_updates] at hmem
  | some k =>
    refine ⟨(stream_gemini parse resp).1
        ++ (match (stream_gemini parse resp).2 with
            | some e => [AiUpdate.Error ("Error: ".toList ++ e)]
            | none => []), rfl, ?_⟩
    intro hmem
    rcases List.mem_append.mp hmem with h | h
    · exact (mem_stream_gemini parse resp _ h).1 rfl
    · revert h
      cases (stream_gemini parse resp).2 with
      | none => intro h; cases h
      | some msg =>
        intro h
        have := List.mem_singleton.mp h
        exact nomatch this

/-- C9 (confirmed): a prefixed line whose remainder fails the structured
decode produces no event at all, leaves ingestion of everything after it
untouched (buffer and events equal to a run without the bad line), produces no
Error event, and never sets the stream's error outcome (which only transport
failures set). -/
theorem c9_malformed_resilience (parse : List Char → Option Json)
    (badLine rest2 : List Char)
    (hnl : Char.ofNat 10 ∉ badLine)
    (hpre : (stripCR badLine).take 6 = "data: ".toList)
    (hfail : parse ((stripCR badLine).drop 6) = none) :
    processLine parse badLine = [] ∧
    ingest parse [] (badLine ++ Char.ofNat 10 :: rest2) = ingest parse [] rest2 ∧
    (∀ m, AiUpdate.Error m ∉ (ingest parse [] (badLine ++ Char.ofNat 10 :: rest2)).2) ∧
    ∀ bs : List (List Nat), (process_chunks parse [] (bs.map Except.ok)).2 = none := by
  have h1 : processLine parse badLine = [] := by
    simp only [processLine, hpre, if_true, hfail]
  refine ⟨h1, ?_, ?_, ?_⟩
  · unfold ingest
    rw [List.nil_append, List.nil_append, splitNl_append_nl badLine rest2 hnl]
    simp only [List.flatMap_cons, h1, List.nil_append]
  · intro m hm
    exact (mem_ingest parse [] _ _ hm).2 m rfl
  · exact process_chunks_ok_err parse []

/-- Witness for `c9_malformed_resilience`: a truncated JSON payload followed
by a valid usage line. -/
theorem c9_malformed_resilience_witness :
    (Char.ofNat 10 ∉ "data: \x7b\"x\":".toList) ∧
    ((stripCR "data: \x7b\"x\":".toList).take 6 = "data: ".toList) ∧
    (parseJson ((stripCR "data: \x7b\"x\":".toList).drop 6) = none) ∧
    (processLine parseJson "data: \x7b\"x\":".toList = [] ∧
      ingest parseJson []
          ("data: \x7b\"x\":".toList ++ Char.ofNat 10
            :: "data: \x7b\"usageMetadata\":\x7b\x7d\x7d\n".toList)
        = ingest parseJson [] "data: \x7b\"usageMetadata\":\x7b\x7d\x7d\n".toList ∧
      (∀ m, AiUpdate.Error m ∉
        (ingest parseJson []
          ("data: \x7b\"x\":".toList ++ Char.ofNat 10
            :: "data: \x7b\"usageMetadata\":\x7b\x7d\x7d\n".toList)).2) ∧
      ∀ bs : List (List Nat),
        (process_chunks parseJson [] (bs.map Except.ok)).2 = none) :=
  ⟨by decide, by decide, rfl,
   c9_malformed_resilience parseJson "data: \x7b\"x\":".toList
     "data: \x7b\"usageMetadata\":\x7b\x7d\x7d\n".toList
     (by decide) (by decide) rfl⟩

/-- Lines without a trailing carriage return are unchanged. -/
theorem stripCR_eq_self (l : List Char) (h : l.getLast? ≠ some (Char.ofNat 13)) :
    stripCR l = l := by
  unfold stripCR
  rw [if_neg h]

/-- One full line at the front of the text becomes the first rendered input
line. -/
theorem rustLines_cons_line (f s : List Char) (hnl : Char.ofNat 10 ∉ f) :
    rustLines (f ++ Char.ofNat 10 :: s) = stripCR f :: rustLines s := by
  unfold rustLines
  rw [splitNl_append_nl f s hnl]
  simp only [List.map_cons, List.cons_append]

/-- Unfolding of the newline join. -/
theorem joinNl_cons (l : List Char) (ls : List (List Char)) :
    joinNl (l :: ls) = l ++ Char.ofNat 10 :: joinNl ls := by
  simp [joinNl, List.append_assoc]

/-- The newline join of a nonempty list is nonempty. -/
theorem joinNl_ne_nil (ls : List (List Char)) (h : ls ≠ []) : joinNl ls ≠ [] := by
  cases ls with
  | nil => exact absurd rfl h
  | cons l ls =>
    rw [joinNl_cons]
    intro hc
    have := congrArg List.length hc
    simp at this

/-- Newline-joined code lines split back into exactly those lines. -/
theorem rustLines_joinNl_append (ls : List (List Char)) (t : List Char)
    (h : ∀ l ∈ ls, Char.ofNat 10 ∉ l ∧ l.getLast? ≠ some (Char.ofNat 13)) :
    rustLines (joinNl ls ++ t) = ls ++ rustLines t := by
  induction ls with
  | nil => simp [joinNl]
  | cons l ls ih =>
    have hl := h l (List.mem_cons_self l ls)
    rw [joinNl_cons, List.append_assoc, List.cons_append,
      rustLines_cons_line l _ hl.1, stripCR_eq_self l hl.2,
      ih (fun x hx => h x (List.mem_cons_of_mem l hx))]
    rfl

/-- The highlighting loop emits exactly one rendered line per code line. -/
theorem highlightAll_length {σ : Type}
    (step : σ → List Char → List (SynStyle × List Char) × σ)
    (st : σ) (lines : List (List Char)) :
    (highlightAll step st lines).length = lines.length := by
  induction lines generalizing st with
  | nil => rfl
  | cons l ls ih => simp [highlightAll, ih]

/-- With a text-preserving highlighter, each rendered code line carries
exactly its source line's text. -/
theorem highlightAll_text {σ : Type}
    (step : σ → List Char → List (SynStyle × List Char) × σ)
    (htext : ∀ st l, ((step st l).1.map Prod.snd).flatten = l)
    (st : σ) (lines : List (List Char)) :
    (highlightAll step st lines).map lineChars = lines := by
  induction lines generalizing st with
  | nil => rfl
  | cons l ls ih =>
    simp only [highlightAll, List.map_cons, ih]
    congr 1
    unfold lineChars
    rw [List.map_map]
    have hcomp : (Span.text ∘ fun sc : SynStyle × List Char =>
        { text := sc.2, style := translate_style sc.1 : Span }) = Prod.snd := rfl
    rw [hcomp, htext]

/-- In-code lines accumulate into the pending source text, each with a line
feed, while the loop stays in the fence. -/
theorem pmLoop_code_accum {σ : Type} (init : List Char → σ)
    (step : σ → List Char → List (SynStyle × List Char) × σ)
    (ls rest : List (List Char)) (lang content : List Char)
    (h : ∀ l ∈ ls, ¬ (rustTrim l).take 3 = ticks) :
    pmLoop init step (ls ++ rest) true lang content
      = pmLoop init step rest true lang (content ++ joinNl ls) := by
  induction ls generalizing content with
  | nil => simp [joinNl]
  | cons l ls ih =>
    have hl := h l (List.mem_cons_self l ls)
    simp only [List.cons_append, pmLoop, if_neg hl, if_true, List.append_eq]
    rw [ih _ (fun x hx => h x (List.mem_cons_of_mem l hx)), joinNl_cons]
    simp [List.append_assoc]

/-- Rendering a message that opens a fence and never closes it: one dim fence
line, then the whole buffered code flushed through the highlighter. -/
theorem pm_fenced_open {σ : Type} (init : List Char → σ)
    (step : σ → List Char → List (SynStyle × List Char) × σ)
    (f : List Char) (ls : List (List Char))
    (hf : (rustTrim f).take 3 = ticks)
    (hfn : Char.ofNat 10 ∉ f) (hfr : f.getLast? ≠ some (Char.ofNat 13))
    (hls : ∀ l ∈ ls, ¬ (rustTrim l).take 3 = ticks ∧ Char.ofNat 10 ∉ l
      ∧ l.getLast? ≠ some (Char.ofNat 13))
    (hne : ls ≠ []) :
    parse_markdown init step (f ++ Char.ofNat 10 :: joinNl ls)
      = [{ text := f, style := dimStyle }]
          :: flushCode init step (trimStartMatchesTicks (rustTrim f)) (joinNl ls) := by
  unfold parse_markdown
  rw [rustLines_cons_line f _ hfn, stripCR_eq_self f hfr]
  have hlines : rustLines (joinNl ls) = ls := by
    have h2 := rustLines_joinNl_append ls []
      (fun l hl => ⟨(hls l hl).2.1, (hls l hl).2.2⟩)
    rw [List.append_nil] at h2
    rw [h2]
    simp [rustLines, splitNl]
  rw [hlines]
  simp only [pmLoop, if_pos hf, Bool.false_eq_true, if_false]
  have hacc := pmLoop_code_accum init step ls [] (trimStartMatchesTicks (rustTrim f))
    [] (fun l hl => (hls l hl).1)
  rw [List.append_nil] at hacc
  rw [hacc, List.nil_append]
  simp only [pmLoop]
  rw [if_pos ⟨trivial, joinNl_ne_nil ls hne⟩]

/-- Rendering a message whose fence is closed: one dim fence line, the whole
buffered code flushed through the highlighter, one dim closing fence line. -/
theorem pm_fenced_closed {σ : Type} (init : List Char → σ)
    (step : σ → List Char → List (SynStyle × List Char) × σ)
    (f : List Char) (ls : List (List Char))
    (hf : (rustTrim f).take 3 = ticks)
    (hfn : Char.ofNat 10 ∉ f) (hfr : f.getLast? ≠ some (Char.ofNat 13))
    (hls : ∀ l ∈ ls, ¬ (rustTrim l).take 3 = ticks ∧ Char.ofNat 10 ∉ l
      ∧ l.getLast? ≠ some (Char.ofNat 13)) :
    parse_markdown init step (f ++ Char.ofNat 10 :: (joinNl ls ++ ticks))
      = [{ text := f, style := dimStyle }]
          :: (flushCode init step (trimStartMatchesTicks (rustTrim f)) (joinNl ls)
            ++ [[{ text := ticks, style := dimStyle }]]) := by
  unfold parse_markdown
  rw [rustLines_cons_line f _ hfn, stripCR_eq_self f hfr]
  have hlines : rustLines (joinNl ls ++ ticks) = ls ++ [ticks] := by
    rw [rustLines_joinNl_append ls ticks
      (fun l hl => ⟨(hls l hl).2.1, (hls l hl).2.2⟩)]
    rfl
  rw [hlines]
  simp only [pmLoop, if_pos hf, Bool.false_eq_true, if_false]
  have hacc := pmLoop_code_accum init step ls [ticks]
    (trimStartMatchesTicks (rustTrim f)) [] (fun l hl => (hls l hl).1)
  rw [hacc, List.nil_append]
  have htick : (rustTrim ticks).take 3 = ticks := by decide
  simp only [pmLoop, if_pos htick, if_true]
  simp

/-- C7 (confirmed): the fenced input renders as one dim open-fence line, one
highlighter-colored line whose text is the source line `print(1)` with its
line terminator, and one dim close-fence line; and for any further fenced
content the whole accumulated block is re-flushed through one fresh
highlighter run on every render, so re-rendering recolors the block the same
way each time. -/
theorem c7_fence_roundtrip {σ : Type} (init : List Char → σ)
    (step : σ → List Char → List (SynStyle × List Char) × σ)
    (htext : ∀ st l, ((step st l).1.map Prod.snd).flatten = l) :
    parse_markdown init step "```py\nprint(1)\n```".toList
      = [{ text := "```py".toList, style := dimStyle }]
          :: (flushCode init step "py".toList "print(1)\n".toList
            ++ [[{ text := ticks, style := dimStyle }]])
    ∧ (flushCode init step "py".toList "print(1)\n".toList).length = 1
    ∧ (flushCode init step "py".toList "print(1)\n".toList).map lineChars
        = ["print(1)\n".toList]
    ∧ ∀ ls : List (List Char),
        (∀ l ∈ ls, ¬ (rustTrim l).take 3 = ticks ∧ Char.ofNat 10 ∉ l
          ∧ l.getLast? ≠ some (Char.ofNat 13)) →
        parse_markdown init step
            ("```py".toList ++ Char.ofNat 10 :: (joinNl ls ++ ticks))
          = [{ text := "```py".toList, style := dimStyle }]
              :: (flushCode init step "py".toList (joinNl ls)
                ++ [[{ text := ticks, style := dimStyle }]]) := by
  have hgen : ∀ ls : List (List Char),
      (∀ l ∈ ls, ¬ (rustTrim l).take 3 = ticks ∧ Char.ofNat 10 ∉ l
        ∧ l.getLast? ≠ some (Char.ofNat 13)) →
      parse_markdown init step
          ("```py".toList ++ Char.ofNat 10 :: (joinNl ls ++ ticks))
        = [{ text := "```py".toList, style := dimStyle }]
            :: (flushCode init step "py".toList (joinNl ls)
              ++ [[{ text := ticks, style := dimStyle }]]) := by
    intro ls hls
    have h2 := pm_fenced_closed init step "```py".toList ls
      (by decide) (by decide) (by decide) hls
    rw [show trimStartMatchesTicks (rustTrim "```py".toList) = "py".toList
      from by decide] at h2
    exact h2
  refine ⟨?_, ?_, ?_, hgen⟩
  · have h1 := hgen ["print(1)".toList] (by decide)
    rw [show ("```py".toList ++ Char.ofNat 10
        :: (joinNl ["print(1)".toList] ++ ticks))
      = "```py\nprint(1)\n```".toList from by decide] at h1
    rw [show joinNl ["print(1)".toList] = "print(1)\n".toList from by decide] at h1
    exact h1
  · unfold flushCode
    rw [highlightAll_length]
    decide
  · unfold flushCode
    rw [highlightAll_text step htext]
    decide

/-- Witness for `c7_fence_roundtrip` with a concrete text-preserving
highlighter capability. -/
theorem c7_fence_roundtrip_witness :
    (∀ st l, ((unitStep st l).1.map Prod.snd).flatten = l) ∧
    parse_markdown unitInit unitStep "```py\nprint(1)\n```".toList
      = [{ text := "```py".toList, style := dimStyle }]
          :: (flushCode unitInit unitStep "py".toList "print(1)\n".toList
            ++ [[{ text := ticks, style := dimStyle }]]) :=
  ⟨fun st l => by simp [unitStep],
   (c7_fence_roundtrip unitInit unitStep (fun st l => by simp [unitStep])).1⟩

/-- C8 (confirmed): input ending inside an open fence still renders the dim
open line followed by every buffered code line flushed through the
highlighter path (text preserved per line), and that unterminated render plus
one dim closing fence line is exactly the render of the same input with a
closing fence - the identical highlighter path, re-run from scratch on the
whole buffer at every call, for any (progressively longer) buffered content. -/
theorem c8_unterminated_fence {σ : Type} (init : List Char → σ)
    (step : σ → List Char → List (SynStyle × List Char) × σ)
    (f : List Char) (ls : List (List Char))
    (htext : ∀ st l, ((step st l).1.map Prod.snd).flatten = l)
    (hf : (rustTrim f).take 3 = ticks)
    (hfn : Char.ofNat 10 ∉ f) (hfr : f.getLast? ≠ some (Char.ofNat 13))
    (hls : ∀ l ∈ ls, ¬ (rustTrim l).take 3 = ticks ∧ Char.ofNat 10 ∉ l
      ∧ l.getLast? ≠ some (Char.ofNat 13))
    (hne : ls ≠ []) :
    parse_markdown init step (f ++ Char.ofNat 10 :: joinNl ls)
      = [{ text := f, style := dimStyle }]
          :: flushCode init step (trimStartMatchesTicks (rustTrim f)) (joinNl ls)
    ∧ (parse_markdown init step (f ++ Char.ofNat 10 :: joinNl ls)).map lineChars
        = f :: linesWithEndings (joinNl ls)
    ∧ parse_markdown init step (f ++ Char.ofNat 10 :: joinNl ls)
          ++ [[{ text := ticks, style := dimStyle }]]
        = parse_markdown init step (f ++ Char.ofNat 10 :: (joinNl ls ++ ticks)) := by
  have hopen := pm_fenced_open init step f ls hf hfn hfr hls hne
  have hclosed := pm_fenced_closed init step f ls hf hfn hfr hls
  refine ⟨hopen, ?_, ?_⟩
  · rw [hopen]
    simp only [List.map_cons]
    unfold flushCode
    rw [highlightAll_text step htext]
    congr 1
    simp [lineChars]
  · rw [hopen, hclosed]
    simp

/-- Witness for `c8_unterminated_fence` on a concrete unterminated block. -/
theorem c8_unterminated_fence_witness :
    (∀ st l, ((unitStep st l).1.map Prod.snd).flatten = l) ∧
    ((rustTrim "```py".toList).take 3 = ticks) ∧
    (Char.ofNat 10 ∉ "```py".toList) ∧
    ("```py".toList.getLast? ≠ some (Char.ofNat 13)) ∧
    (∀ l ∈ ["print(".toList], ¬ (rustTrim l).take 3 = ticks ∧ Char.ofNat 10 ∉ l
      ∧ l.getLast? ≠ some (Char.ofNat 13)) ∧
    (["print(".toList] ≠ ([] : List (List Char))) ∧
    parse_markdown unitInit unitStep
        ("```py".toList ++ Char.ofNat 10 :: joinNl ["print(".toList])
      = [{ text := "```py".toList, style := dimStyle }]
          :: flushCode unitInit unitStep
              (trimStartMatchesTicks (rustTrim "```py".toList))
              (joinNl ["print(".toList]) :=
  ⟨fun st l => by simp [unitStep], by decide, by decide, by decide, by decide,
   by decide,
   (c8_unterminated_fence unitInit unitStep "```py".toList ["print(".toList]
     (fun st l => by simp [unitStep]) (by decide) (by decide) (by decide)
     (by decide) (by decide)).1⟩

end Claims

end Gemchat
